import Mathlib

/-!
Verification of the SillyTavern-Emma-Plugin extension-scaffolding routes.

The development shallowly embeds the `/create` and `/open` route handlers of
the plugin (source: `routeExtensionCreate` and `routeExtensionOpen`).
Filesystem state is modelled as a list of directory paths plus a list of
file entries (path, content), a path being its list of segments; `path.join`
of a root and a single leaf is modelled including Node's behaviour of
dropping an empty trailing segment.  External collaborators are abstracted:
`simple-git` repository initialization does not touch any file the handlers
later read and is modelled as a no-op on the file map, and the editor launch
is modelled by appending the command line to a log.  `JSON.stringify(manifest,
null, 2)` is modelled by a character-level serializer producing the exact
layout Node prints (escaping of `"`, `\` in strings; `\u` escapes for control
characters are not modelled); `JSON.parse` on the re-read manifest is
modelled by a parser of that layout.
-/

/-- A filesystem path as its list of segments. -/
abbrev FsPath := List String

/-- Filesystem state: existing directories and files (path with content).
A later write shadows an earlier entry for the same path. -/
structure FS where
  dirs : List FsPath
  files : List (FsPath × String)
deriving Repr, DecidableEq

/-- Content of a file, models `fs.readFileSync` (latest write wins). -/
def FS.readFile (fs : FS) (p : FsPath) : Option String :=
  (fs.files.find? (fun e => e.1 == p)).map (·.2)

/-- whether a file exists at `p`. -/
def FS.isFile (fs : FS) (p : FsPath) : Bool :=
  fs.files.any (fun e => e.1 == p)

/-- Models `fs.existsSync`: a directory or a file at `p`. -/
def FS.pathExists (fs : FS) (p : FsPath) : Bool :=
  fs.dirs.contains p || fs.isFile p

/-- Models `fs.writeFileSync` / `fs.promises.writeFile`. -/
def FS.writeFile (fs : FS) (p : FsPath) (content : String) : FS :=
  { fs with files := (p, content) :: fs.files }

/-- Models `fs.mkdirSync` (non-recursive): fails (throws) when the path
already exists or the parent directory is missing. -/
def FS.mkdir (fs : FS) (p : FsPath) : Option FS :=
  if fs.pathExists p then none
  else if fs.dirs.contains p.dropLast then some { fs with dirs := p :: fs.dirs }
  else none

/-- Models `fs.promises.copyFile`: fails when the source is missing. -/
def FS.copyFile (fs : FS) (src dst : FsPath) : Option FS :=
  (fs.readFile src).map (fs.writeFile dst)

/-- Names of the directories directly inside `root` (models
`fs.readdirSync(root)` filtered by `statSync(..).isDirectory()`). -/
def FS.childDirNames (fs : FS) (root : FsPath) : List String :=
  fs.dirs.filterMap fun p =>
    if p.dropLast == root && p != root then p.getLast? else none

/-- `PUBLIC_DIRECTORIES.globalExtensions = 'public/scripts/extensions/third-party'`
(src/constants.ts). -/
def globalExtensionsRoot : FsPath :=
  ["public", "scripts", "extensions", "third-party"]

/-- `PLUGIN_DIRECTORIES.skeletons = path.join(__dirname, 'skeletons')`
(src/constants.ts); `__dirname` is the built plugin directory. -/
def skeletonsRoot : FsPath := ["dist", "skeletons"]

/-- Models `path.join(root, leaf)` for a single sanitized leaf: Node drops an
empty path segment, so joining `''` yields the root itself. -/
def joinLeaf (root : FsPath) (leaf : String) : FsPath :=
  if leaf = "" then root else root ++ [leaf]

/-- JavaScript string truthiness of a possibly-absent body field:
`undefined` and `''` are falsy. -/
def truthyStr : Option String → Bool
  | none => false
  | some s => !(s == "")

/-- The characters the sanitizer keeps: the class `[a-zA-Z0-9-_]` of
`name.replace(/[^a-zA-Z0-9-_]/g, '')`. -/
def isNameChar (c : Char) : Bool :=
  ('A' ≤ c && c ≤ 'Z') || ('a' ≤ c && c ≤ 'z') || ('0' ≤ c && c ≤ '9') ||
    c == '-' || c == '_'

/-- The sanitizer `name.replace(/[^a-zA-Z0-9-_]/g, '')`: remove every
character outside `{A-Z, a-z, 0-9, -, _}`. -/
def sanitizeName (s : String) : String :=
  ⟨s.data.filter isNameChar⟩

/-- The character class of `GITHUB_NAME_REGEX = /^[\w.-]+$/`:
`\w` is `[A-Za-z0-9_]`, plus dot and hyphen. -/
def isGithubNameChar (c : Char) : Bool :=
  c.isAlphanum || c == '_' || c == '.' || c == '-'

/-- `GITHUB_NAME_REGEX.test s`: non-empty and every character in the class. -/
def githubNameTest (s : String) : Bool :=
  !(s == "") && s.data.all isGithubNameChar

def GITHUB_USERNAME_MAX_LENGTH : Nat := 39

def GITHUB_REPO_MAX_LENGTH : Nat := 100

/-- The body of a `POST /create` request together with the caller's admin
flag (`req.user?.profile?.admin`); an absent string field is `none`. -/
structure CreateReq where
  admin : Bool
  name : Option String
  display_name : Option String
  author : Option String
  email : Option String
  githubUsername : Option String
deriving Repr, DecidableEq

/-- The manifest record the handler builds (`manifest` in
`routeExtensionCreate`); `homepage` is spread in only when a github
username was supplied. -/
structure Manifest where
  display_name : String
  version : String
  description : String
  author : String
  license : String
  loading_order : Nat
  homepage : Option String
deriving Repr, DecidableEq

/-- The `manifest` object literal of `routeExtensionCreate`. -/
def buildManifest (req : CreateReq) : Manifest :=
  { display_name := req.display_name.getD ""
    version := "1.0.0"
    description := "A new extension"
    author :=
      if truthyStr req.email then
        req.author.getD "" ++ " <" ++ req.email.getD "" ++ ">"
      else req.author.getD ""
    license := "AGPL-3.0"
    loading_order := 10
    homepage :=
      if truthyStr req.githubUsername then
        some ("https://github.com/" ++ req.githubUsername.getD "" ++ "/" ++
          req.name.getD "")
      else none }

/-- JSON string-body escaping as `JSON.stringify` performs it for the
characters that occur here: `"` and `\` get a backslash. -/
def escapeChars : List Char → List Char
  | [] => []
  | c :: cs =>
    (if c = '"' || c = '\\' then ['\\', c] else [c]) ++ escapeChars cs

/-- A serialized JSON string field followed by its closing quote and `rest`. -/
def strField (s : List Char) (rest : List Char) : List Char :=
  escapeChars s ++ '"' :: rest

/-- Decimal rendering of the numeric `loading_order` field. -/
def natChars (n : Nat) : List Char := (toString n).data

def litDisplayName : List Char := "\x7b\n  \"display_name\": \"".data
def litVersion : List Char := ",\n  \"version\": \"".data
def litDescription : List Char := ",\n  \"description\": \"".data
def litAuthor : List Char := ",\n  \"author\": \"".data
def litLicense : List Char := ",\n  \"license\": \"".data
def litLoadingOrder : List Char := ",\n  \"loading_order\": ".data
def litHomepage : List Char := ",\n  \"homepage\": \"".data
def litClose : List Char := "\n\x7d".data

/-- The exact text `JSON.stringify(manifest, null, 2)` prints for the
manifest record (keys in insertion order, two-space indent, `homepage`
omitted entirely when absent). -/
def serializeManifestChars (m : Manifest) : List Char :=
  litDisplayName ++ strField m.display_name.data
    (litVersion ++ strField m.version.data
      (litDescription ++ strField m.description.data
        (litAuthor ++ strField m.author.data
          (litLicense ++ strField m.license.data
            (litLoadingOrder ++ (natChars m.loading_order ++
              (match m.homepage with
               | some h => litHomepage ++ strField h.data litClose
               | none => litClose)))))))

def serializeManifest (m : Manifest) : String :=
  ⟨serializeManifestChars m⟩

/-- Consume an expected literal prefix. -/
def expectLit : List Char → List Char → Option (List Char)
  | [], cs => some cs
  | _ :: _, [] => none
  | l :: ls, c :: cs => if c = l then expectLit ls cs else none

/-- Read a JSON string body up to its closing quote, undoing `escapeChars`. -/
def readStr : List Char → Option (List Char × List Char)
  | [] => none
  | c :: rest =>
    if c = '"' then some ([], rest)
    else if c = '\\' then
      match rest with
      | [] => none
      | d :: rest2 =>
        if d = '"' || d = '\\' then
          (readStr rest2).map (fun p => (d :: p.1, p.2))
        else none
    else (readStr rest).map (fun p => (c :: p.1, p.2))

/-- Accumulate a run of decimal digits. -/
def readDigits : List Char → Nat → Nat × List Char
  | [], acc => (acc, [])
  | c :: cs, acc =>
    if c.isDigit then readDigits cs (acc * 10 + (c.toNat - 48))
    else (acc, c :: cs)

/-- Read a decimal number (at least one digit). -/
def readNat (cs : List Char) : Option (Nat × List Char) :=
  match cs with
  | [] => none
  | c :: _ => if c.isDigit then some (readDigits cs 0) else none

/-- `JSON.parse` on the re-read manifest file, modelled on the textual image
of `serializeManifest` (the only inputs the handler ever parses); any other
layout is rejected. -/
def parseManifestChars (cs : List Char) : Option Manifest :=
  match expectLit litDisplayName cs with
  | none => none
  | some cs =>
  match readStr cs with
  | none => none
  | some (d, cs) =>
  match expectLit litVersion cs with
  | none => none
  | some cs =>
  match readStr cs with
  | none => none
  | some (v, cs) =>
  match expectLit litDescription cs with
  | none => none
  | some cs =>
  match readStr cs with
  | none => none
  | some (de, cs) =>
  match expectLit litAuthor cs with
  | none => none
  | some cs =>
  match readStr cs with
  | none => none
  | some (a, cs) =>
  match expectLit litLicense cs with
  | none => none
  | some cs =>
  match readStr cs with
  | none => none
  | some (li, cs) =>
  match expectLit litLoadingOrder cs with
  | none => none
  | some cs =>
  match readNat cs with
  | none => none
  | some (n, cs) =>
  match expectLit litHomepage cs with
  | some cs =>
    (match readStr cs with
     | none => none
     | some (h, cs) =>
       match expectLit litClose cs with
       | some [] =>
         some ⟨⟨d⟩, ⟨v⟩, ⟨de⟩, ⟨a⟩, ⟨li⟩, n, some ⟨h⟩⟩
       | _ => none)
  | none =>
    match expectLit litClose cs with
    | some [] => some ⟨⟨d⟩, ⟨v⟩, ⟨de⟩, ⟨a⟩, ⟨li⟩, n, none⟩
    | _ => none

def parseManifest (s : String) : Option Manifest :=
  parseManifestChars s.data

/-- Expansion of a JavaScript replacement string for a regex with no
capture groups (ECMA-262 GetSubstitution): `$$` yields a dollar, `$&` the
matched text, a dollar followed by a backquote (code 96) the part of the
subject before the match, a dollar followed by an apostrophe (code 39) the
part after it; every other dollar sequence (digits, `$<`, a trailing
dollar) stays literal. -/
def expandRepl (matched before after : List Char) : List Char → List Char
  | [] => []
  | c :: rest =>
    if c = '$' then
      match rest with
      | [] => ['$']
      | d :: rest2 =>
        if d = '$' then '$' :: expandRepl matched before after rest2
        else if d = '&' then matched ++ expandRepl matched before after rest2
        else if d = Char.ofNat 96 then
          before ++ expandRepl matched before after rest2
        else if d = Char.ofNat 39 then
          after ++ expandRepl matched before after rest2
        else '$' :: d :: expandRepl matched before after rest2
    else c :: expandRepl matched before after rest

/-- Fuel-indexed worker for `replaceChars`: `full` is the whole subject and
`pos` the position of the remaining input within it, so each match's dollar
expansion sees the text before and after that match; the fuel is the input
length, so it never runs out before the input does (each step consumes at
least one character). -/
def replaceCharsFuel (pat repl full : List Char) :
    Nat → Nat → List Char → List Char
  | 0, _, l => l
  | _ + 1, _, [] => []
  | fuel + 1, pos, c :: cs =>
    if pat.isPrefixOf (c :: cs) then
      expandRepl pat (List.take pos full)
          (List.drop (pos + pat.length) full) repl ++
        replaceCharsFuel pat repl full fuel (pos + pat.length)
          (List.drop (pat.length - 1) cs)
    else c :: replaceCharsFuel pat repl full fuel (pos + 1) cs

/-- Global replacement of every leftmost, non-overlapping occurrence of the
(non-empty, literal) `pat`; the replacement text is not rescanned for
further matches, but its dollar sequences are expanded by `expandRepl` —
the semantics of JavaScript's `String.prototype.replace` with a global
literal-string regex and no capture groups. -/
def replaceChars (pat repl l : List Char) : List Char :=
  replaceCharsFuel pat repl l l.length 0 l

/-- `s.replace(/pat/g, repl)` for a literal pattern, dollar patterns in the
replacement included. -/
def replaceStr (s pat repl : String) : String :=
  ⟨replaceChars pat.data repl.data s.data⟩

/-- The possible responses of `routeExtensionCreate`, with the payloads the
code sends (a 200 carries the extension path and the re-parsed manifest). -/
inductive CreateResponse where
  | forbidden (msg : String)
  | badRequest (msg : String)
  | conflict (msg : String)
  | internalError (msg : String)
  | ok (path : FsPath) (manifestData : Manifest)
deriving Repr, DecidableEq

/-- The HTTP status each response constructor is sent with. -/
def CreateResponse.status : CreateResponse → Nat
  | .forbidden _ => 403
  | .badRequest _ => 400
  | .conflict _ => 409
  | .internalError _ => 500
  | .ok _ _ => 200

/-- The directory path `/create` computes for a request:
`path.join(PUBLIC_DIRECTORIES.globalExtensions, name.replace(/[^a-zA-Z0-9-_]/g, ''))`. -/
def extensionPathFor (req : CreateReq) : FsPath :=
  joinLeaf globalExtensionsRoot (sanitizeName (req.name.getD ""))

/-- The mutation phase of `routeExtensionCreate`, entered after every
validation gate and the collision check have passed: create the directory,
copy the two skeleton files, materialize the README from its template,
write the manifest, then re-read and re-parse the manifest for the
response.  Any thrown step lands in the handler's `catch`, which answers
500 without cleaning up what was already written (no rollback).  The
`simple-git` init/config/add/commit sequence touches no file the handler
reads and is modelled as a no-op on the file map. -/
def performCreate (req : CreateReq) (extensionPath : FsPath) (fs : FS) :
    CreateResponse × FS :=
  match fs.mkdir extensionPath with
  | none => (.internalError "Failed to create extension", fs)
  | some fs1 =>
  match fs1.copyFile (skeletonsRoot ++ ["index.js"])
      (extensionPath ++ ["index.js"]) with
  | none => (.internalError "Failed to create extension", fs1)
  | some fs2 =>
  match fs2.copyFile (skeletonsRoot ++ ["LICENSE"])
      (extensionPath ++ ["LICENSE"]) with
  | none => (.internalError "Failed to create extension", fs2)
  | some fs3 =>
  match fs3.readFile (skeletonsRoot ++ ["README.md"]) with
  | none => (.internalError "Failed to create extension", fs3)
  | some tmpl =>
    let readmeContent :=
      replaceStr (replaceStr tmpl "username"
          (if truthyStr req.githubUsername then req.githubUsername.getD ""
           else "your-username")) "ExtensionName" (req.name.getD "")
    let fs4 := fs3.writeFile (extensionPath ++ ["README.md"]) readmeContent
    let fs5 := fs4.writeFile (extensionPath ++ ["manifest.json"])
      (serializeManifest (buildManifest req))
    match fs5.readFile (extensionPath ++ ["manifest.json"]) with
    | none => (.internalError "Failed to create extension", fs5)
    | some manifestJSON =>
      match parseManifest manifestJSON with
      | none => (.internalError "Failed to create extension", fs5)
      | some manifestData => (.ok extensionPath manifestData, fs5)

/-- Collision check and mutation phase of `/create`, after all the
validation gates. -/
def createAfterValidation (req : CreateReq) (fs : FS) : CreateResponse × FS :=
  let extensionPath := extensionPathFor req
  if fs.pathExists extensionPath then (.conflict "Extension already exists", fs)
  else performCreate req extensionPath fs

/-- `routeExtensionCreate`: admin gate, required-field gate, the
`if (githubUsername) { ... }` validation block (linearized into a guard per
`return`), then collision check and the mutation phase. -/
def routeExtensionCreate (req : CreateReq) (fs : FS) : CreateResponse × FS :=
  if !req.admin then
    (.forbidden "Only admins can create extensions", fs)
  else if !truthyStr req.name || !truthyStr req.display_name ||
      !truthyStr req.author then
    (.badRequest
      "Bad Request: name, display_name, and author are required in the request body.",
      fs)
  else if truthyStr req.githubUsername &&
      !githubNameTest (req.githubUsername.getD "") then
    (.badRequest
      "Invalid GitHub username format. Must contain only letters, numbers, hyphens, dots, and underscores.",
      fs)
  else if truthyStr req.githubUsername &&
      decide (GITHUB_USERNAME_MAX_LENGTH < (req.githubUsername.getD "").length) then
    (.badRequest "GitHub username must not exceed 39 characters.", fs)
  else if truthyStr req.githubUsername && !githubNameTest (req.name.getD "") then
    (.badRequest
      "Invalid repository name format. Must contain only letters, numbers, hyphens, dots, and underscores.",
      fs)
  else if truthyStr req.githubUsername &&
      decide (GITHUB_REPO_MAX_LENGTH < (req.name.getD "").length) then
    (.badRequest "Repository name must not exceed 100 characters.", fs)
  else createAfterValidation req fs

/-- The body of a `POST /open` request with the caller's admin flag; an
absent `editor` field defaults to `"webstorm"` at destructuring. -/
structure OpenReq where
  admin : Bool
  editor : Option String
  extensionName : Option String
deriving Repr, DecidableEq

/-- The possible responses of `routeExtensionOpen`. -/
inductive OpenResponse where
  | forbidden (msg : String)
  | badRequest (msg : String)
  | notFound (msg : String)
  | internalError (msg : String)
  | ok
deriving Repr, DecidableEq

def OpenResponse.status : OpenResponse → Nat
  | .forbidden _ => 403
  | .badRequest _ => 400
  | .notFound _ => 404
  | .internalError _ => 500
  | .ok => 200

/-- `const ALLOWED_EDITORS = ['code', 'webstorm', 'atom', 'sublime', 'notepad++']`. -/
def ALLOWED_EDITORS : List String :=
  ["code", "webstorm", "atom", "sublime", "notepad++"]

/-- `routeExtensionOpen`: admin gate, required-name gate, editor allow-list
gate, existence checks, then the `exec` call — modelled by appending the
command line (editor followed by the quoted slash-joined path) to `execLog`.
A missing extensions root makes `readdirSync` throw into the 500 handler. -/
def routeExtensionOpen (req : OpenReq) (fs : FS) (execLog : List String) :
    OpenResponse × List String :=
  if !req.admin then (.forbidden "Only admins can open extensions", execLog)
  else
    let editor := match req.editor with | none => "webstorm" | some e => e
    if !truthyStr req.extensionName then
      (.badRequest "Extension name is required", execLog)
    else if !(ALLOWED_EDITORS.contains editor) then
      (.badRequest ("Editor must be one of: " ++
        String.intercalate ", " ALLOWED_EDITORS), execLog)
    else if !(fs.dirs.contains globalExtensionsRoot) then
      (.internalError "Failed to execute command", execLog)
    else
      let extensionName := req.extensionName.getD ""
      if !((fs.childDirNames globalExtensionsRoot).contains extensionName) then
        (.notFound "Extension not found", execLog)
      else
        let extensionPath := globalExtensionsRoot ++ [extensionName, "index.js"]
        if !(fs.pathExists extensionPath) then
          (.notFound "index.js not found in extension", execLog)
        else
          (.ok, execLog ++
            [editor ++ " \"" ++ String.intercalate "/" extensionPath ++ "\""])

/-- `p` lies strictly below `root`: it extends it by at least one segment. -/
def strictlyBelow (root p : FsPath) : Prop :=
  ∃ rest, rest ≠ [] ∧ p = root ++ rest

lemma FS.readFile_writeFile (fs : FS) (p q : FsPath) (c : String) :
    (fs.writeFile p c).readFile q = if q = p then some c else fs.readFile q := by
  by_cases h : q = p
  · subst h
    simp [FS.readFile, FS.writeFile, List.find?_cons_of_pos]
  · have hb : ¬ (fun e : FsPath × String => e.1 == q) (p, c) = true := by
      simp only [beq_iff_eq]
      exact fun hh => h hh.symm
    simp only [FS.readFile, FS.writeFile, h, if_false]
    rw [List.find?_cons_of_neg fs.files hb]

lemma lastSegment_ne {l₁ l₂ : FsPath} {a b : String} (h : a ≠ b) :
    l₁ ++ [a] ≠ l₂ ++ [b] := by
  intro heq
  have := congrArg List.getLast? heq
  simp [List.getLast?_concat] at this
  exact h this

lemma expectLit_append (lit r : List Char) : expectLit lit (lit ++ r) = some r := by
  induction lit with
  | nil => rfl
  | cons c cs ih => simp [expectLit, ih]

lemma readStr_cons (c : Char) (rest : List Char) :
    readStr (c :: rest) =
      if c = '"' then some ([], rest)
      else if c = '\\' then
        (match rest with
         | [] => none
         | d :: rest2 =>
           if d = '"' || d = '\\' then
             (readStr rest2).map (fun p => (d :: p.1, p.2))
           else none)
      else (readStr rest).map (fun p => (c :: p.1, p.2)) := by
  cases rest with
  | nil => rfl
  | cons d rest2 => rfl

lemma readStr_escape (s r : List Char) :
    readStr (strField s r) = some (s, r) := by
  induction s with
  | nil => simp [strField, escapeChars, readStr_cons]
  | cons c cs ih =>
    have ih' : readStr (escapeChars cs ++ '"' :: r) = some (cs, r) := by
      simpa [strField] using ih
    rcases Decidable.em (c = '"' ∨ c = '\\') with h | h
    · rcases h with h | h <;> subst h <;>
        simp [strField, escapeChars, readStr_cons, ih']
    · have h1 : c ≠ '"' := fun hh => h (Or.inl hh)
      have h2 : c ≠ '\\' := fun hh => h (Or.inr hh)
      simp [strField, escapeChars, readStr_cons, h1, h2, ih']

lemma parse_serialize (m : Manifest) (h10 : m.loading_order = 10) :
    parseManifest (serializeManifest m) = some m := by
  obtain ⟨d, v, de, a, li, lo, ho⟩ := m
  simp only [Manifest.loading_order] at h10
  subst h10
  have hclose : readNat (natChars 10 ++ litClose) = some (10, litClose) := by
    decide
  have hnohome : expectLit litHomepage litClose = none := by decide
  have hself : expectLit litClose litClose = some [] := by decide
  cases ho with
  | none =>
    show parseManifestChars (serializeManifestChars ⟨d, v, de, a, li, 10, none⟩) = _
    simp only [serializeManifestChars, parseManifestChars, expectLit_append,
      readStr_escape, hclose, hnohome, hself]
  | some h =>
    have hhome : readNat (natChars 10 ++ (litHomepage ++ strField h.data litClose)) =
        some (10, litHomepage ++ strField h.data litClose) := by
      show readNat ('1' :: '0' :: (litHomepage ++ strField h.data litClose)) = _
      have hcons : litHomepage ++ strField h.data litClose =
          ',' :: ("\n  \"homepage\": \"".data ++ strField h.data litClose) := rfl
      rw [hcons]
      simp +decide [readNat, readDigits]
    show parseManifestChars (serializeManifestChars ⟨d, v, de, a, li, 10, some h⟩) = _
    simp only [serializeManifestChars, parseManifestChars, expectLit_append,
      readStr_escape, hhome, hself]

/-- C2: for every input string the sanitizer keeps exactly the allowed
characters (A-Z, a-z, 0-9, hyphen, underscore): the output's characters are
all allowed, the output is exactly the filter of the input by the allowed
class (hence the subsequence of its allowed characters in original order),
and the sanitizer is total (it never rejects: the empty output is a value,
not a failure). -/
theorem sanitizer_filters_allowed_subsequence (s : String) :
    (∀ c ∈ (sanitizeName s).data, isNameChar c = true) ∧
    (sanitizeName s).data = s.data.filter isNameChar ∧
    List.Sublist (sanitizeName s).data s.data := by
  refine ⟨?_, rfl, List.filter_sublist s.data⟩
  intro c hc
  exact List.of_mem_filter hc

lemma sanitizeName_eq_self_iff (s : String) :
    sanitizeName s = s ↔ ∀ c ∈ s.data, isNameChar c = true := by
  constructor
  · intro h
    have hd : s.data.filter isNameChar = s.data := congrArg String.data h
    exact fun c hc => List.filter_eq_self.mp hd c hc
  · intro h
    exact String.ext (List.filter_eq_self.mpr h)

/-- `name`, `display_name` and `author` are all truthy
(the negation of `!name || !display_name || !author`). -/
def requiredFieldsPresent (req : CreateReq) : Bool :=
  truthyStr req.name && truthyStr req.display_name && truthyStr req.author

/-- The `if (githubUsername) { ... }` block raises no 400: either no
username was supplied, or username and name both match the restricted
class and the length limits. -/
def githubChecksPass (req : CreateReq) : Bool :=
  !truthyStr req.githubUsername ||
    (githubNameTest (req.githubUsername.getD "") &&
     !decide (GITHUB_USERNAME_MAX_LENGTH < (req.githubUsername.getD "").length) &&
     githubNameTest (req.name.getD "") &&
     !decide (GITHUB_REPO_MAX_LENGTH < (req.name.getD "").length))

/-- C1: every authorization failure (403), required-field failure (400),
github-coordinate validation failure (400) and directory-collision (409) of
`POST /create` answers the corresponding status and leaves the filesystem
untouched: no directory is created and no file is written. -/
theorem create_error_paths_no_mutation (req : CreateReq) (fs : FS) :
    (req.admin = false →
      (routeExtensionCreate req fs).1.status = 403 ∧
      (routeExtensionCreate req fs).2 = fs) ∧
    (req.admin = true → requiredFieldsPresent req = false →
      (routeExtensionCreate req fs).1.status = 400 ∧
      (routeExtensionCreate req fs).2 = fs) ∧
    (req.admin = true → requiredFieldsPresent req = true →
      githubChecksPass req = false →
      (routeExtensionCreate req fs).1.status = 400 ∧
      (routeExtensionCreate req fs).2 = fs) ∧
    (req.admin = true → requiredFieldsPresent req = true →
      githubChecksPass req = true →
      fs.pathExists (extensionPathFor req) = true →
      (routeExtensionCreate req fs).1.status = 409 ∧
      (routeExtensionCreate req fs).2 = fs) := by
  rcases hE : routeExtensionCreate req fs with ⟨r, fs2⟩
  unfold routeExtensionCreate at hE
  refine ⟨?_, ?_, ?_, ?_⟩
  · intro h
    rw [h] at hE
    simp only [Bool.not_false, if_true] at hE
    cases hE
    simp [CreateResponse.status]
  · intro ha hreq
    rw [ha] at hE
    have h2 : (!truthyStr req.name || !truthyStr req.display_name ||
        !truthyStr req.author) = true := by
      cases hn : truthyStr req.name <;> cases hd : truthyStr req.display_name <;>
        cases hau : truthyStr req.author <;>
        simp_all [requiredFieldsPresent]
    rw [h2] at hE
    simp only [Bool.not_true, if_false, if_true] at hE
    cases hE
    simp [CreateResponse.status]
  · intro ha hreq hgh
    rw [ha] at hE
    have h2 : (!truthyStr req.name || !truthyStr req.display_name ||
        !truthyStr req.author) = false := by
      cases hn : truthyStr req.name <;> cases hd : truthyStr req.display_name <;>
        cases hau : truthyStr req.author <;>
        simp_all [requiredFieldsPresent]
    rw [h2] at hE
    have ht : truthyStr req.githubUsername = true := by
      cases h : truthyStr req.githubUsername
      · simp [githubChecksPass, h] at hgh
      · rfl
    rw [githubChecksPass, ht] at hgh
    simp only [Bool.not_true, Bool.false_or] at hgh
    rw [ht] at hE
    rw [if_neg (by decide)] at hE
    rw [if_neg (by decide)] at hE
    by_cases c1 : githubNameTest (req.githubUsername.getD "") = false
    · rw [if_pos (by simp [c1])] at hE
      cases hE
      simp [CreateResponse.status]
    · have c1' : githubNameTest (req.githubUsername.getD "") = true := by
        simpa using c1
      rw [if_neg (by simp [c1'])] at hE
      by_cases c2 : GITHUB_USERNAME_MAX_LENGTH <
          (req.githubUsername.getD "").length
      · rw [if_pos (by simp [c2])] at hE
        cases hE
        simp [CreateResponse.status]
      · rw [if_neg (by simp [c2])] at hE
        by_cases c3 : githubNameTest (req.name.getD "") = false
        · rw [if_pos (by simp [c3])] at hE
          cases hE
          simp [CreateResponse.status]
        · have c3' : githubNameTest (req.name.getD "") = true := by simpa using c3
          rw [if_neg (by simp [c3'])] at hE
          by_cases c4 : GITHUB_REPO_MAX_LENGTH < (req.name.getD "").length
          · rw [if_pos (by simp [c4])] at hE
            cases hE
            simp [CreateResponse.status]
          · exfalso
            rw [c1', c3'] at hgh
            simp [c2, c4] at hgh
  · intro ha hreq hgh hex
    rw [ha] at hE
    have h2 : (!truthyStr req.name || !truthyStr req.display_name ||
        !truthyStr req.author) = false := by
      cases hn : truthyStr req.name <;> cases hd : truthyStr req.display_name <;>
        cases hau : truthyStr req.author <;>
        simp_all [requiredFieldsPresent]
    rw [h2] at hE
    have hguards : (truthyStr req.githubUsername &&
        !githubNameTest (req.githubUsername.getD "")) = false ∧
        (truthyStr req.githubUsername && decide (GITHUB_USERNAME_MAX_LENGTH <
          (req.githubUsername.getD "").length)) = false ∧
        (truthyStr req.githubUsername && !githubNameTest (req.name.getD "")) = false ∧
        (truthyStr req.githubUsername && decide (GITHUB_REPO_MAX_LENGTH <
          (req.name.getD "").length)) = false := by
      cases ht : truthyStr req.githubUsername
      · simp
      · rw [githubChecksPass, ht] at hgh
        simp only [Bool.not_true, Bool.false_or, Bool.and_eq_true] at hgh
        obtain ⟨⟨⟨g1, g2⟩, g3⟩, g4⟩ := hgh
        simp only [Bool.true_and]
        rw [g1, g3]
        simp only [Bool.not_true, Bool.and_false, Bool.false_and, true_and]
        constructor
        · simpa using g2
        · simpa using g4
    rw [if_neg (by decide)] at hE
    rw [if_neg (by decide)] at hE
    rw [hguards.1] at hE
    rw [if_neg (by decide)] at hE
    rw [hguards.2.1] at hE
    rw [if_neg (by decide)] at hE
    rw [hguards.2.2.1] at hE
    rw [if_neg (by decide)] at hE
    rw [hguards.2.2.2] at hE
    rw [if_neg (by decide)] at hE
    rw [createAfterValidation] at hE
    rw [hex] at hE
    rw [if_pos rfl] at hE
    cases hE
    simp [CreateResponse.status]

/-- C3: a privileged `/create` request with the required fields present and
a github username longer than 39 characters is answered 400 (either by the
format check or by the length check) and mutates nothing. -/
theorem create_rejects_long_github_username (req : CreateReq) (fs : FS)
    (ha : req.admin = true) (hreq : requiredFieldsPresent req = true)
    (ht : truthyStr req.githubUsername = true)
    (hlen : GITHUB_USERNAME_MAX_LENGTH < (req.githubUsername.getD "").length) :
    (routeExtensionCreate req fs).1.status = 400 ∧
    (routeExtensionCreate req fs).2 = fs := by
  rcases hE : routeExtensionCreate req fs with ⟨r, fs2⟩
  unfold routeExtensionCreate at hE
  rw [ha] at hE
  have h2 : (!truthyStr req.name || !truthyStr req.display_name ||
      !truthyStr req.author) = false := by
    cases hn : truthyStr req.name <;> cases hd : truthyStr req.display_name <;>
      cases hau : truthyStr req.author <;>
      simp_all [requiredFieldsPresent]
  rw [h2, ht] at hE
  rw [if_neg (by decide)] at hE
  rw [if_neg (by decide)] at hE
  by_cases c1 : githubNameTest (req.githubUsername.getD "") = false
  · rw [if_pos (by simp [c1])] at hE
    cases hE
    simp [CreateResponse.status]
  · have c1' : githubNameTest (req.githubUsername.getD "") = true := by
      simpa using c1
    rw [if_neg (by simp [c1'])] at hE
    rw [if_pos (by simp [hlen])] at hE
    cases hE
    simp [CreateResponse.status]

def fsEmpty : FS := ⟨[], []⟩

def reqLongUser : CreateReq :=
  ⟨true, some "x", some "d", some "a", none,
    some "aaaaaaaaaaaaaaaaaaaaaaaaaaaaaaaaaaaaaaaa"⟩

theorem create_rejects_long_github_username_witness :
    (routeExtensionCreate reqLongUser fsEmpty).1.status = 400 ∧
    (routeExtensionCreate reqLongUser fsEmpty).2 = fsEmpty :=
  create_rejects_long_github_username reqLongUser fsEmpty rfl (by decide) rfl
    (by decide)

lemma copyFile_eq_some {fs : FS} {src dst : FsPath} {fs2 : FS}
    (h : fs.copyFile src dst = some fs2) :
    ∃ c, fs.readFile src = some c ∧ fs2 = fs.writeFile dst c := by
  unfold FS.copyFile at h
  cases hr : fs.readFile src with
  | none => rw [hr] at h; cases h
  | some c =>
    rw [hr] at h
    exact ⟨c, rfl, (Option.some.inj h).symm⟩

lemma mkdir_eq_some {fs : FS} {p : FsPath} {fs1 : FS}
    (h : fs.mkdir p = some fs1) :
    fs.pathExists p = false ∧ fs.dirs.contains p.dropLast = true ∧
    fs1 = { fs with dirs := p :: fs.dirs } := by
  unfold FS.mkdir at h
  by_cases he : fs.pathExists p = true
  · rw [if_pos he] at h; cases h
  · rw [if_neg he] at h
    by_cases hp : fs.dirs.contains p.dropLast = true
    · rw [if_pos hp] at h
      exact ⟨by simpa using he, hp, (Option.some.inj h).symm⟩
    · rw [if_neg hp] at h; cases h

lemma pathExists_of_mem_dirs {fs : FS} {p : FsPath} (h : p ∈ fs.dirs) :
    fs.pathExists p = true := by
  have hc : fs.dirs.contains p = true := by
    simpa [List.elem_iff] using h
  unfold FS.pathExists
  rw [hc, Bool.true_or]

lemma create_ok_inv (req : CreateReq) (fs : FS) (p : FsPath) (m : Manifest)
    (h : (routeExtensionCreate req fs).1 = CreateResponse.ok p m) :
    p = extensionPathFor req ∧
    parseManifest (serializeManifest (buildManifest req)) = some m ∧
    (routeExtensionCreate req fs).2.readFile (p ++ ["manifest.json"]) =
      some (serializeManifest (buildManifest req)) ∧
    (∃ tmpl, fs.readFile (skeletonsRoot ++ ["README.md"]) = some tmpl ∧
      (routeExtensionCreate req fs).2.readFile (p ++ ["README.md"]) =
        some (replaceStr (replaceStr tmpl "username"
            (if truthyStr req.githubUsername then req.githubUsername.getD ""
             else "your-username")) "ExtensionName"
          (req.name.getD ""))) := by
  rcases hE : routeExtensionCreate req fs with ⟨r, fs'⟩
  rw [hE] at h
  dsimp only at h ⊢
  subst h
  simp only [routeExtensionCreate, createAfterValidation, performCreate] at hE
  split at hE
  · simp at hE
  split at hE
  · simp at hE
  split at hE
  · simp at hE
  split at hE
  · simp at hE
  split at hE
  · simp at hE
  split at hE
  · simp at hE
  split at hE
  · simp at hE
  split at hE
  · simp at hE
  split at hE
  · simp at hE
  split at hE
  · simp at hE
  split at hE
  · simp at hE
  split at hE
  · simp at hE
  split at hE
  · simp at hE
  rename_i u1 fs1 heq1 u2 fs2 heq2 u3 fs3 heq3 u4 tmpl heq4 u5 mjson heq5
    u6 mdata heq6
  simp only [Prod.mk.injEq, CreateResponse.ok.injEq] at hE
  obtain ⟨⟨hp, hm⟩, hfs⟩ := hE
  subst hp
  subst hm
  subst hfs
  obtain ⟨hex1, hpar1, hfs1⟩ := mkdir_eq_some heq1
  obtain ⟨c1, hrc1, hfs2⟩ := copyFile_eq_some heq2
  obtain ⟨c2, hrc2, hfs3⟩ := copyFile_eq_some heq3
  rw [FS.readFile_writeFile, if_pos rfl] at heq5
  have hmj : mjson = serializeManifest (buildManifest req) :=
    (Option.some.inj heq5).symm
  subst hmj
  refine ⟨rfl, heq6, ?_, ?_⟩
  · rw [FS.readFile_writeFile, if_pos rfl]
  · refine ⟨tmpl, ?_, ?_⟩
    · rw [hfs3] at heq4
      rw [FS.readFile_writeFile, if_neg (lastSegment_ne (by decide))] at heq4
      rw [hfs2] at heq4
      rw [FS.readFile_writeFile, if_neg (lastSegment_ne (by decide))] at heq4
      rw [hfs1] at heq4
      exact heq4
    · rw [FS.readFile_writeFile, if_neg (lastSegment_ne (by decide))]
      rw [FS.readFile_writeFile, if_pos rfl]

def skelFS : FS :=
  { dirs := [globalExtensionsRoot, skeletonsRoot]
    files := [(skeletonsRoot ++ ["index.js"], "// placeholder"),
              (skeletonsRoot ++ ["LICENSE"], "AGPL-3.0 text"),
              (skeletonsRoot ++ ["README.md"], "ExtensionName by username")] }

def skelDotFS : FS :=
  { dirs := [globalExtensionsRoot, skeletonsRoot]
    files := [(skeletonsRoot ++ ["index.js"], "// placeholder"),
              (skeletonsRoot ++ ["LICENSE"], "AGPL-3.0 text"),
              (skeletonsRoot ++ ["README.md"], "ExtensionName")] }

def reqDotName : CreateReq :=
  ⟨true, some "foo.bar", some "Foo", some "A", none, none⟩

def reqDollarName : CreateReq :=
  ⟨true, some "a$&b", some "Foo", some "A", none, none⟩

def reqEmail : CreateReq :=
  ⟨true, some "Foo", some "F", some "A", some "a@b.c", none⟩

def reqGh : CreateReq :=
  ⟨true, some "Foo2", some "F", some "A", none, some "octo-cat"⟩

/-- C4 (counterexample): with README template `"ExtensionName"` and raw name
`"foo.bar"` (no github username, so the name is never validated), the
create succeeds and writes a README containing the raw name `"foo.bar"`,
while the claim's substitution by the sanitized name would produce
`"foobar"` — and the two differ. -/
theorem readme_counterexample :
    (routeExtensionCreate reqDotName skelDotFS).1 =
      CreateResponse.ok (globalExtensionsRoot ++ ["foobar"])
        (buildManifest reqDotName) ∧
    (routeExtensionCreate reqDotName skelDotFS).2.readFile
      (globalExtensionsRoot ++ ["foobar", "README.md"]) = some "foo.bar" ∧
    replaceStr (replaceStr "ExtensionName" "username" "your-username")
      "ExtensionName" (sanitizeName "foo.bar") = "foobar" ∧
    ("foo.bar" : String) ≠ "foobar" :=
  ⟨by decide, by decide, by decide, by decide⟩

/-- C4 (amended): on every successful `/create` the README written into the
new directory is the skeleton template with every occurrence of `username`
replaced by the supplied github username (or the literal `your-username`),
and then every occurrence of `ExtensionName` replaced by the RAW supplied
name — not the sanitized directory leaf — the name being interpreted as a
JavaScript replacement string: its `$$`, `$&`, dollar-backquote and
dollar-apostrophe sequences are expanded (`replaceStr`), since the raw name
is unvalidated when no github username is supplied. -/
theorem readme_substitution_uses_raw_name (req : CreateReq) (fs : FS)
    (p : FsPath) (m : Manifest)
    (h : (routeExtensionCreate req fs).1 = CreateResponse.ok p m) :
    ∃ tmpl, fs.readFile (skeletonsRoot ++ ["README.md"]) = some tmpl ∧
      (routeExtensionCreate req fs).2.readFile (p ++ ["README.md"]) =
        some (replaceStr (replaceStr tmpl "username"
            (if truthyStr req.githubUsername then req.githubUsername.getD ""
             else "your-username")) "ExtensionName" (req.name.getD "")) := by
  obtain ⟨-, -, -, h4⟩ := create_ok_inv req fs p m h
  exact h4

theorem readme_substitution_uses_raw_name_witness :
    (∃ tmpl, skelDotFS.readFile (skeletonsRoot ++ ["README.md"]) = some tmpl ∧
      (routeExtensionCreate reqDollarName skelDotFS).2.readFile
        ((globalExtensionsRoot ++ ["ab"]) ++ ["README.md"]) =
        some (replaceStr (replaceStr tmpl "username"
            (if truthyStr reqDollarName.githubUsername then
              reqDollarName.githubUsername.getD "" else "your-username"))
          "ExtensionName" (reqDollarName.name.getD ""))) ∧
    (routeExtensionCreate reqDollarName skelDotFS).2.readFile
      (globalExtensionsRoot ++ ["ab", "README.md"]) =
      some "aExtensionNameb" :=
  ⟨readme_substitution_uses_raw_name reqDollarName skelDotFS
    (globalExtensionsRoot ++ ["ab"]) (buildManifest reqDollarName) (by decide),
   by decide⟩

/-- C5: on every successful `/create`, the manifest's author field is
`"<author> <email>"` when an email was supplied and the author string
unchanged otherwise. -/
theorem manifest_author_email_combination (req : CreateReq) (fs : FS)
    (p : FsPath) (m : Manifest)
    (h : (routeExtensionCreate req fs).1 = CreateResponse.ok p m) :
    m.author = if truthyStr req.email then
      req.author.getD "" ++ " <" ++ req.email.getD "" ++ ">"
    else req.author.getD "" := by
  obtain ⟨-, hpm, -, -⟩ := create_ok_inv req fs p m h
  rw [parse_serialize (buildManifest req) rfl] at hpm
  rw [← Option.some.inj hpm]
  rfl

theorem manifest_author_email_combination_witness :
    (buildManifest reqEmail).author = if truthyStr reqEmail.email then
      reqEmail.author.getD "" ++ " <" ++ reqEmail.email.getD "" ++ ">"
    else reqEmail.author.getD "" :=
  manifest_author_email_combination reqEmail skelFS
    (globalExtensionsRoot ++ ["Foo"]) (buildManifest reqEmail) (by decide)

/-- C6: on every successful `/create`, the manifest's homepage field is
present exactly when a github username was supplied (it then passed
validation), in which case it is the URL built from the username and the
raw extension name; otherwise the field is absent from the record (`none`),
not present with an empty value. -/
theorem manifest_homepage_presence (req : CreateReq) (fs : FS)
    (p : FsPath) (m : Manifest)
    (h : (routeExtensionCreate req fs).1 = CreateResponse.ok p m) :
    (truthyStr req.githubUsername = true →
      m.homepage = some ("https://github.com/" ++ req.githubUsername.getD "" ++
        "/" ++ req.name.getD "")) ∧
    (truthyStr req.githubUsername = false → m.homepage = none) := by
  obtain ⟨-, hpm, -, -⟩ := create_ok_inv req fs p m h
  rw [parse_serialize (buildManifest req) rfl] at hpm
  rw [← Option.some.inj hpm]
  constructor
  · intro ht
    simp [buildManifest, ht]
  · intro ht
    simp [buildManifest, ht]

theorem manifest_homepage_presence_witness :
    (truthyStr reqGh.githubUsername = true →
      (buildManifest reqGh).homepage = some ("https://github.com/" ++
        reqGh.githubUsername.getD "" ++ "/" ++ reqGh.name.getD "")) ∧
    (truthyStr reqGh.githubUsername = false →
      (buildManifest reqGh).homepage = none) :=
  manifest_homepage_presence reqGh skelFS (globalExtensionsRoot ++ ["Foo2"])
    (buildManifest reqGh) (by decide)

/-- C7: on every successful `/create`, the `manifestData` of the response is
the re-parse of the manifest file as it stands on disk after the request:
the echoed structure round-trips through the written serialization. -/
theorem manifest_response_roundtrip (req : CreateReq) (fs : FS)
    (p : FsPath) (m : Manifest)
    (h : (routeExtensionCreate req fs).1 = CreateResponse.ok p m) :
    ∃ s, (routeExtensionCreate req fs).2.readFile (p ++ ["manifest.json"]) =
      some s ∧ parseManifest s = some m := by
  obtain ⟨-, hpm, hread, -⟩ := create_ok_inv req fs p m h
  exact ⟨_, hread, hpm⟩

theorem manifest_response_roundtrip_witness :
    ∃ s, (routeExtensionCreate reqGh skelFS).2.readFile
      ((globalExtensionsRoot ++ ["Foo2"]) ++ ["manifest.json"]) = some s ∧
      parseManifest s = some (buildManifest reqGh) :=
  manifest_response_roundtrip reqGh skelFS (globalExtensionsRoot ++ ["Foo2"])
    (buildManifest reqGh) (by decide)

/-- C8: a privileged `/open` request with a non-empty extension name and a
supplied editor selector outside the allow-list is answered 400 with the
message listing the allowed selectors, and no external process is launched
(the exec log is unchanged). -/
theorem open_rejects_unknown_editor (req : OpenReq) (fs : FS)
    (execLog : List String) (e : String)
    (ha : req.admin = true) (hn : truthyStr req.extensionName = true)
    (he : req.editor = some e) (hbad : ALLOWED_EDITORS.contains e = false) :
    routeExtensionOpen req fs execLog =
      (OpenResponse.badRequest ("Editor must be one of: " ++
        String.intercalate ", " ALLOWED_EDITORS), execLog) := by
  unfold routeExtensionOpen
  rw [ha, he, hn]
  rw [if_neg (by decide)]
  dsimp only
  rw [if_neg (by decide)]
  rw [if_pos (by
    simp only [Bool.not_eq_true']
    exact hbad)]

theorem open_rejects_unknown_editor_witness :
    routeExtensionOpen ⟨true, some "vim", some "x"⟩ fsEmpty [] =
      (OpenResponse.badRequest ("Editor must be one of: " ++
        String.intercalate ", " ALLOWED_EDITORS), []) :=
  open_rejects_unknown_editor ⟨true, some "vim", some "x"⟩ fsEmpty [] "vim"
    rfl rfl rfl (by decide)

lemma create_fs_cases (req : CreateReq) (fs : FS) :
    (routeExtensionCreate req fs).2 = fs ∨
    (fs.pathExists (extensionPathFor req) = false ∧
     fs.dirs.contains (extensionPathFor req).dropLast = true ∧
     (routeExtensionCreate req fs).2.dirs = extensionPathFor req :: fs.dirs ∧
     ∀ e ∈ (routeExtensionCreate req fs).2.files,
       e ∈ fs.files ∨ ∃ x c, e = (extensionPathFor req ++ [x], c)) := by
  rcases hE : routeExtensionCreate req fs with ⟨r, fs2⟩
  dsimp only
  simp only [routeExtensionCreate, createAfterValidation, performCreate] at hE
  split at hE
  · cases hE; exact Or.inl rfl
  split at hE
  · cases hE; exact Or.inl rfl
  split at hE
  · cases hE; exact Or.inl rfl
  split at hE
  · cases hE; exact Or.inl rfl
  split at hE
  · cases hE; exact Or.inl rfl
  split at hE
  · cases hE; exact Or.inl rfl
  split at hE
  · cases hE; exact Or.inl rfl
  split at hE
  · cases hE; exact Or.inl rfl
  split at hE
  · -- copy of index.js failed: only the fresh directory was created
    cases hE
    rename_i hmk hcp
    obtain ⟨hex, hpar, hfs⟩ := mkdir_eq_some hmk
    subst hfs
    exact Or.inr ⟨hex, hpar, rfl, fun e he => Or.inl he⟩
  split at hE
  · -- copy of LICENSE failed
    cases hE
    rename_i u0 fs1 hmk u1 u2 hcp1 hcp2
    obtain ⟨hex, hpar, hfs1⟩ := mkdir_eq_some hmk
    obtain ⟨c1, hrc1, hfs2⟩ := copyFile_eq_some hcp1
    subst hfs2
    subst hfs1
    refine Or.inr ⟨hex, hpar, rfl, fun e he => ?_⟩
    simp only [FS.writeFile, List.mem_cons] at he
    rcases he with he | he
    · exact Or.inr ⟨"index.js", c1, he⟩
    · exact Or.inl he
  split at hE
  · -- README template read failed
    cases hE
    rename_i u0 fs1 hmk u1 fsb hcp1 u2 u3 hcp2 hrd
    obtain ⟨hex, hpar, hfs1⟩ := mkdir_eq_some hmk
    obtain ⟨c1, hrc1, hfs2⟩ := copyFile_eq_some hcp1
    obtain ⟨c2, hrc2, hfs3⟩ := copyFile_eq_some hcp2
    subst hfs3
    subst hfs2
    subst hfs1
    refine Or.inr ⟨hex, hpar, rfl, fun e he => ?_⟩
    simp only [FS.writeFile, List.mem_cons] at he
    rcases he with he | he | he
    · exact Or.inr ⟨"LICENSE", c2, he⟩
    · exact Or.inr ⟨"index.js", c1, he⟩
    · exact Or.inl he
  split at hE
  · -- manifest re-read failed: all four files were already written
    cases hE
    rename_i u0 fs1 hmk u1 fsb hcp1 u2 fsc hcp2 u3 tmpl hrd u4 hm5
    obtain ⟨hex, hpar, hfs1⟩ := mkdir_eq_some hmk
    obtain ⟨c1, hrc1, hfs2⟩ := copyFile_eq_some hcp1
    obtain ⟨c2, hrc2, hfs3⟩ := copyFile_eq_some hcp2
    subst hfs3
    subst hfs2
    subst hfs1
    refine Or.inr ⟨hex, hpar, rfl, fun e he => ?_⟩
    simp only [FS.writeFile, List.mem_cons] at he
    rcases he with he | he | he | he | he
    · exact Or.inr ⟨"manifest.json", _, he⟩
    · exact Or.inr ⟨"README.md", _, he⟩
    · exact Or.inr ⟨"LICENSE", c2, he⟩
    · exact Or.inr ⟨"index.js", c1, he⟩
    · exact Or.inl he
  split at hE
  · -- manifest re-parse failed
    cases hE
    rename_i u0 fs1 hmk u1 fsb hcp1 u2 fsc hcp2 u3 tmpl hrd u4 mjson hm5
      u5 hp6
    obtain ⟨hex, hpar, hfs1⟩ := mkdir_eq_some hmk
    obtain ⟨c1, hrc1, hfs2⟩ := copyFile_eq_some hcp1
    obtain ⟨c2, hrc2, hfs3⟩ := copyFile_eq_some hcp2
    subst hfs3
    subst hfs2
    subst hfs1
    refine Or.inr ⟨hex, hpar, rfl, fun e he => ?_⟩
    simp only [FS.writeFile, List.mem_cons] at he
    rcases he with he | he | he | he | he
    · exact Or.inr ⟨"manifest.json", _, he⟩
    · exact Or.inr ⟨"README.md", _, he⟩
    · exact Or.inr ⟨"LICENSE", c2, he⟩
    · exact Or.inr ⟨"index.js", c1, he⟩
    · exact Or.inl he
  · -- success
    cases hE
    rename_i u0 fs1 hmk u1 fsb hcp1 u2 fsc hcp2 u3 tmpl hrd u4 mjson hm5
      u5 mdata hp6
    obtain ⟨hex, hpar, hfs1⟩ := mkdir_eq_some hmk
    obtain ⟨c1, hrc1, hfs2⟩ := copyFile_eq_some hcp1
    obtain ⟨c2, hrc2, hfs3⟩ := copyFile_eq_some hcp2
    subst hfs3
    subst hfs2
    subst hfs1
    refine Or.inr ⟨hex, hpar, rfl, fun e he => ?_⟩
    simp only [FS.writeFile, List.mem_cons] at he
    rcases he with he | he | he | he | he
    · exact Or.inr ⟨"manifest.json", _, he⟩
    · exact Or.inr ⟨"README.md", _, he⟩
    · exact Or.inr ⟨"LICENSE", c2, he⟩
    · exact Or.inr ⟨"index.js", c1, he⟩
    · exact Or.inl he

/-- C9: provided the configured global-extensions root exists, every
`/create` request that reaches directory creation has a non-empty sanitized
leaf, every directory it creates and every file it writes lies strictly
below the extensions root, and nothing is ever created at the root itself
or outside it. -/
theorem create_stays_below_extensions_root (req : CreateReq) (fs : FS)
    (hroot : globalExtensionsRoot ∈ fs.dirs) :
    (∀ q ∈ (routeExtensionCreate req fs).2.dirs,
      q ∈ fs.dirs ∨ strictlyBelow globalExtensionsRoot q) ∧
    (∀ q c, (q, c) ∈ (routeExtensionCreate req fs).2.files →
      (q, c) ∈ fs.files ∨ strictlyBelow globalExtensionsRoot q) ∧
    ((routeExtensionCreate req fs).2.dirs ≠ fs.dirs →
      sanitizeName (req.name.getD "") ≠ "") := by
  rcases create_fs_cases req fs with h | ⟨hex, hpar, hdirs, hfiles⟩
  · rw [h]
    exact ⟨fun q hq => Or.inl hq, fun q c hqc => Or.inl hqc,
      fun hne => absurd rfl hne⟩
  · have hleaf : sanitizeName (req.name.getD "") ≠ "" := by
      intro h0
      have hrooteq : extensionPathFor req = globalExtensionsRoot := by
        rw [extensionPathFor, h0, joinLeaf, if_pos rfl]
      rw [hrooteq] at hex
      rw [pathExists_of_mem_dirs hroot] at hex
      exact Bool.noConfusion hex
    have hext : extensionPathFor req =
        globalExtensionsRoot ++ [sanitizeName (req.name.getD "")] := by
      rw [extensionPathFor, joinLeaf, if_neg hleaf]
    refine ⟨?_, ?_, fun _ => hleaf⟩
    · intro q hq
      rw [hdirs] at hq
      rcases List.mem_cons.mp hq with hq | hq
      · subst hq
        right
        exact ⟨[sanitizeName (req.name.getD "")], by simp, hext⟩
      · exact Or.inl hq
    · intro q c hqc
      rcases hfiles (q, c) hqc with h1 | ⟨x, cc, h1⟩
      · exact Or.inl h1
      · right
        injection h1 with hq hc
        refine ⟨[sanitizeName (req.name.getD ""), x], by simp, ?_⟩
        rw [hq, hext]
        simp [List.append_assoc]

theorem create_stays_below_extensions_root_witness :
    (∀ q ∈ (routeExtensionCreate reqDotName skelFS).2.dirs,
      q ∈ skelFS.dirs ∨ strictlyBelow globalExtensionsRoot q) ∧
    (∀ q c, (q, c) ∈ (routeExtensionCreate reqDotName skelFS).2.files →
      (q, c) ∈ skelFS.files ∨ strictlyBelow globalExtensionsRoot q) ∧
    ((routeExtensionCreate reqDotName skelFS).2.dirs ≠ skelFS.dirs →
      sanitizeName (reqDotName.name.getD "") ≠ "") :=
  create_stays_below_extensions_root reqDotName skelFS (by decide)

def reqDotGh : CreateReq :=
  ⟨true, some "foo.bar", some "Foo", some "A", none, some "octo-cat"⟩

/-- C10: the input `name = "foo.bar"` with github username `"octo-cat"`
passes the github-coordinate validation (whose class allows dots), yet the
returned path's final component is the sanitized `"foobar"` while the
homepage URL and the README embed the raw `"foo.bar"`; and in general the
directory leaf coincides with the raw name exactly when the name contains
no character outside the sanitizer's class. -/
theorem raw_name_vs_sanitized_leaf :
    (routeExtensionCreate reqDotGh skelDotFS).1 =
      CreateResponse.ok (globalExtensionsRoot ++ ["foobar"])
        (buildManifest reqDotGh) ∧
    (buildManifest reqDotGh).homepage =
      some "https://github.com/octo-cat/foo.bar" ∧
    (routeExtensionCreate reqDotGh skelDotFS).2.readFile
      (globalExtensionsRoot ++ ["foobar", "README.md"]) = some "foo.bar" ∧
    sanitizeName "foo.bar" ≠ "foo.bar" ∧
    (∀ s : String, sanitizeName s = s ↔ ∀ c ∈ s.data, isNameChar c = true) :=
  ⟨by decide, by decide, by decide, by decide, sanitizeName_eq_self_iff⟩
